import Mathlib

/-!
Verification of the `httpfromtcp` HTTP/1.1 core: the header store, the
incremental request parser (`internal/request/request.go`), and the response
writer (the `response` package version carrying chunked-transfer support).

Byte buffers are modelled as `List Char` (all relevant data is ASCII; Go
manipulates these buffers through `string(...)` conversions, so the character
view is faithful).  Go's `(value, error)` returns become `Except`/`Option`
results; Go runtime panics that the code can actually reach are modelled as
dedicated error constructors.  All definitions are executable.
-/

deriving instance DecidableEq for Except

namespace Http

/-- Does `data` start with `pat`?  Mirrors Go's `strings.HasPrefix` on the
character level. -/
def startsWithL : List Char → List Char → Bool
  | [], _ => true
  | _ :: _, [] => false
  | p :: ps, d :: ds => p = d && startsWithL ps ds

/-- Index of the first occurrence of `pat` inside `data`, mirroring Go's
`strings.Index` (which returns -1 when absent; we return `none`). -/
def findSub (pat : List Char) : List Char → Option Nat
  | [] => if startsWithL pat [] then some 0 else none
  | c :: rest =>
    if startsWithL pat (c :: rest) then some 0
    else (findSub pat rest).map (· + 1)

/-- Index of the first occurrence of the character `c`, mirroring
`strings.Index(s, ":")`-style searches for a one-character pattern. -/
def charIdx (c : Char) : List Char → Option Nat
  | [] => none
  | a :: rest => if a = c then some 0 else (charIdx c rest).map (· + 1)

/-- Go's `strings.Split(s, sep)` for a one-character separator: splits at every
occurrence, keeping empty fields. -/
def splitOnChar (c : Char) : List Char → List (List Char)
  | [] => [[]]
  | a :: rest =>
    match splitOnChar c rest with
    | [] => [[a]]
    | s :: ss => if a = c then [] :: s :: ss else (a :: s) :: ss

/-- Join a list of fields with a one-character separator; the left inverse of
`splitOnChar`, used to reason about Go's `strings.Split`. -/
def intercalateChar (c : Char) : List (List Char) → List Char
  | [] => []
  | [a] => a
  | a :: rest => a ++ c :: intercalateChar c rest

/-- Optional whitespace of RFC 7230 field values: space or horizontal tab. -/
def isOWS (c : Char) : Bool := c = ' ' || c = '\t'

/-- Trim leading and trailing spaces/tabs, as Go's `strings.Trim(v, " \t")`. -/
def trimOWS (l : List Char) : List Char :=
  ((l.dropWhile isOWS).reverse.dropWhile isOWS).reverse

/-- ASCII lower-casing of one character, as Go's `strings.ToLower` acts on the
ASCII header names this code handles. -/
def toLowerCh (c : Char) : Char :=
  if 'A' ≤ c ∧ c ≤ 'Z' then Char.ofNat (c.toNat + 32) else c

/-- RFC 7230 token characters: ASCII letters, digits, and the specials
listed by code point: ! # $ % & apostrophe * + - . ^ _ backtick | ~ . -/
def isTokenChar (c : Char) : Bool :=
  c.isAlpha || c.isDigit ||
    (let n := c.toNat
     n = 33 || n = 35 || n = 36 || n = 37 || n = 38 || n = 39 || n = 42 ||
       n = 43 || n = 45 || n = 46 || n = 94 || n = 95 || n = 96 || n = 124 ||
       n = 126)

/-- Value of a non-empty all-digit string, `none` otherwise. -/
def digitsVal (l : List Char) : Option Nat :=
  if l = [] then none
  else if l.all Char.isDigit then
    some (l.foldl (fun a c => a * 10 + (c.toNat - 48)) 0)
  else none

/-- Go's `strconv.Atoi`: an optional sign followed by at least one ASCII
digit, nothing else (overflow is not modelled; the inputs of interest are
small). -/
def goAtoi (s : List Char) : Option Int :=
  match s with
  | [] => none
  | '+' :: rest => (digitsVal rest).map (fun n => (n : Int))
  | '-' :: rest => (digitsVal rest).map (fun n => -(n : Int))
  | _ => (digitsVal s).map (fun n => (n : Int))

/-- The CRLF line terminator (the characters of Go's `"\r\n"`). -/
def crlfL : List Char := [ '\r', '\n' ]

/-- The header-section terminator (the characters of Go's `"\r\n\r\n"`). -/
def crlf2L : List Char := [ '\r', '\n', '\r', '\n' ]

/-- The canonical `content-length` key. -/
def clKey : List Char := ("content-length").data

/-- The canonical `transfer-encoding` key. -/
def teKey : List Char := ("transfer-encoding").data

/-- The literal value `chunked`. -/
def chunkedVal : List Char := ("chunked").data

/-- The separator inserted between joined multi-values of one header. -/
def commaSp : List Char := (", ").data

/-- The `name: value` separator used when rendering a header line. -/
def colonSp : List Char := (": ").data

/-- A header store: canonical (lower-case) field names with their values, in
insertion order.  The Go implementation is a `map[string]string`; the claims
under verification never depend on Go's (unspecified) map iteration order,
so a list fixing insertion order is a faithful model. -/
abbrev Headers := List (List Char × List Char)

/-- Lookup of a canonical key, mirroring Go's `h[key]` map access. -/
def hLookup (h : Headers) (key : List Char) : Option (List Char) :=
  match h with
  | [] => none
  | (k, v) :: rest => if k = key then some v else hLookup rest key

/-- Insert a parsed field: if the canonical key already exists its value is
extended with `", " ++ val`, otherwise the binding is appended. -/
def joinInsert (key val : List Char) : Headers → Headers
  | [] => [(key, val)]
  | (k, v) :: rest =>
    if k = key then (k, v ++ commaSp ++ val) :: rest
    else (k, v) :: joinInsert key val rest

/-- Plain insert-or-replace, mirroring Go's `h[key] = val` map assignment. -/
def setKey (key val : List Char) : Headers → Headers
  | [] => [(key, val)]
  | (k, v) :: rest =>
    if k = key then (key, val) :: rest
    else (k, v) :: setKey key val rest

/-- Merge `upd` into `base` by repeated map assignment, mirroring
`for k, v := range upd { base[k] = v }`. -/
def mergeReplace (base upd : Headers) : Headers :=
  upd.foldl (fun acc kv => setKey kv.1 kv.2 acc) base

/-- Render every stored header as `name: value CRLF`, in store order. -/
def renderHeaders (h : Headers) : List Char :=
  h.foldr (fun kv acc => kv.1 ++ colonSp ++ kv.2 ++ crlfL ++ acc) []

/-- Errors of the header-store parser, named as in the package's test suite
(`ErrInvalidData`, `ErrMalformedHeaderLine`, `ErrInvalidSpacing`,
`ErrInvalidHeaderFieldName`).  Every error corresponds to the Go return
`(0, false, err)`. -/
inductive HErr
  | invalidData
  | malformedHeaderLine
  | invalidSpacing
  | invalidHeaderFieldName
deriving DecidableEq

/-- Modelled from the spec: the final `Headers.Parse` of
`internal/headers/headers.go` is not present in the sources (the file on disk
is a superseded early draft that neither stores fields nor defines the error
values its own test file asserts), so this definition follows section 4.1 of
the specification, with the empty-chunk case taken from the package's test
suite (`Parse` of empty data fails with `ErrInvalidData`): parse at most one
field from the start of the chunk; CRLF at the start is the header-section
terminator `(2, true)`; no CRLF anywhere means more data is needed
`(0, false)`; otherwise the bytes before the first CRLF form the field-line,
which must contain a colon past position 0, with no space immediately before
it and only token characters in the name; the name is lower-cased, the value
trimmed of spaces/tabs, and a repeated name is joined with `", "`. -/
def Headers.Parse (h : Headers) (data : List Char) :
    Except HErr (Nat × Bool × Headers) :=
  if data = [] then .error .invalidData
  else if startsWithL crlfL data then .ok (2, true, h)
  else
    match findSub crlfL data with
    | none => .ok (0, false, h)
    | some lineEnd =>
      let line := data.take lineEnd
      match charIdx ':' line with
      | none => .error .malformedHeaderLine
      | some j =>
        if j = 0 then .error .malformedHeaderLine
        else if line.get? (j - 1) = some ' ' then .error .invalidSpacing
        else
          let name := line.take j
          if name.all isTokenChar then
            .ok (lineEnd + 2, false,
              joinInsert (name.map toLowerCh) (trimOWS (line.drop (j + 1))) h)
          else .error .invalidHeaderFieldName

/-! ## Response writer (the `response` package carrying chunked support) -/

/-- Writer states mirroring the `stateInitialized .. stateTrailersWritten`
iota block. -/
inductive WState
  | stateInitialized
  | stateStatusWritten
  | stateHeadersWritten
  | stateBodyWritten
  | stateChunkedBodyStarted
  | stateChunkedBodyDone
  | stateTrailersWritten
deriving DecidableEq

/-- Numeric value of a writer state, as fixed by the Go iota block; `Flush`
compares states with `<` through these values. -/
def WState.toNat : WState → Nat
  | .stateInitialized => 0
  | .stateStatusWritten => 1
  | .stateHeadersWritten => 2
  | .stateBodyWritten => 3
  | .stateChunkedBodyStarted => 4
  | .stateChunkedBodyDone => 5
  | .stateTrailersWritten => 6

/-- Writer errors: `ErrInvalidWriteState`, plus the distinct
"cannot flush response: status code not set" error of `Flush`. -/
inductive WErr
  | invalidWriteState
  | statusNotSet
deriving DecidableEq

/-- The response writer.  `sink` is the byte stream written so far to the
underlying `io.Writer` (an infallible in-memory sink, as in the claims);
`body` is the buffered non-chunked body.  The `trailers` field mirrors the
Go struct field of the same name, which the code initializes but never
reads or writes afterwards. -/
structure Writer where
  statusCode : Nat
  headers : Headers
  body : List Char
  sink : List Char
  state : WState
  chunked : Bool
  trailers : Headers
deriving DecidableEq

/-- `NewWriter` over an empty sink. -/
def NewWriter : Writer :=
  { statusCode := 0, headers := [], body := [], sink := [],
    state := .stateInitialized, chunked := false, trailers := [] }

/-- `Writer.WriteStatusLine`: only buffers the code and advances the state;
nothing reaches the sink here. -/
def Writer.WriteStatusLine (w : Writer) (statusCode : Nat) :
    Option WErr × Writer :=
  if w.state ≠ .stateInitialized then (some .invalidWriteState, w)
  else (none, { w with statusCode := statusCode, state := .stateStatusWritten })

/-- `Writer.WriteHeaders`: merges the given store into the writer's (map
assignment per key), marks the writer chunked when the merged store maps
`transfer-encoding` to `chunked`, and advances the state.  No sink output. -/
def Writer.WriteHeaders (w : Writer) (h : Headers) : Option WErr × Writer :=
  if w.state ≠ .stateStatusWritten then (some .invalidWriteState, w)
  else
    let hs := mergeReplace w.headers h
    let ch := if hLookup hs teKey = some chunkedVal then true else w.chunked
    (none, { w with headers := hs, chunked := ch, state := .stateHeadersWritten })

/-- `Writer.WriteBody`: appends to the buffered body.  No sink output. -/
def Writer.WriteBody (w : Writer) (p : List Char) : Except WErr Nat × Writer :=
  if w.state ≠ .stateHeadersWritten then (.error .invalidWriteState, w)
  else (.ok p.length,
    { w with body := w.body ++ p, state := .stateBodyWritten })

/-- `Writer.WriteChunkedBody`: legal from `stateHeadersWritten` or
`stateChunkedBodyStarted`; sets the chunked flag and the state first, then
for a non-empty payload emits `hex-length CRLF payload CRLF` directly to the
sink (`fmt.Sprintf("%x", len(p))` produces lower-case hex, as
`Nat.toDigits 16` does). -/
def Writer.WriteChunkedBody (w : Writer) (p : List Char) :
    Except WErr Nat × Writer :=
  if w.state ≠ .stateHeadersWritten ∧ w.state ≠ .stateChunkedBodyStarted then
    (.error .invalidWriteState, w)
  else
    let w1 : Writer :=
      { w with chunked := true, state := .stateChunkedBodyStarted }
    if p = [] then (.ok 0, w1)
    else
      (.ok p.length,
        { w1 with sink :=
            w1.sink ++ Nat.toDigits 16 p.length ++ crlfL ++ p ++ crlfL })

/-- `Writer.WriteChunkedBodyDone`: emits the final zero-size chunk line
`0 CRLF` (the terminating blank line is left to `WriteTrailers`/`Flush`). -/
def Writer.WriteChunkedBodyDone (w : Writer) : Except WErr Nat × Writer :=
  if w.state ≠ .stateChunkedBodyStarted then (.error .invalidWriteState, w)
  else
    (.ok 0, { w with sink := w.sink ++ (("0").data ++ crlfL),
                     state := .stateChunkedBodyDone })

/-- `Writer.WriteTrailers`: emits each trailer as `name: value CRLF` and a
final blank line. -/
def Writer.WriteTrailers (w : Writer) (h : Headers) : Option WErr × Writer :=
  if w.state ≠ .stateChunkedBodyDone then (some .invalidWriteState, w)
  else
    (none, { w with sink := w.sink ++ renderHeaders h ++ crlfL,
                    state := .stateTrailersWritten })

/-- Reason phrase of `Flush` / `WriteStatusLine`: 200, 400 and 500 have
phrases, every other code gets the empty phrase. -/
def reasonPhrase : Nat → List Char
  | 200 => ("OK").data
  | 400 => ("Bad Request").data
  | 500 => ("Internal Server Error").data
  | _ => []

/-- The status line `HTTP/1.1 <code> <reason>CRLF` as produced by
`fmt.Fprintf("HTTP/1.1 %d %s\r\n", ...)`. -/
def statusLineBytes (code : Nat) : List Char :=
  ("HTTP/1.1 ").data ++ Nat.toDigits 10 code ++ (" ").data ++
    reasonPhrase code ++ crlfL

/-- `Writer.Flush`: fails when no status was set; synthesizes empty headers
when needed; emits nothing after trailers; emits the terminating CRLF after
a finished chunked body; otherwise (buffered mode) stamps `content-length`
(when not chunked), and emits status line, header block, blank line and the
buffered body. -/
def Writer.Flush (w : Writer) : Option WErr × Writer :=
  if w.state.toNat < WState.stateStatusWritten.toNat then
    (some .statusNotSet, w)
  else
    let w :=
      if w.state.toNat < WState.stateHeadersWritten.toNat then
        (Writer.WriteHeaders w []).2
      else w
    if w.state = .stateTrailersWritten then (none, w)
    else if w.state = .stateChunkedBodyDone then
      (none, { w with sink := w.sink ++ crlfL })
    else
      let bodyBytes := w.body
      let hs :=
        if ¬ w.chunked then
          setKey clKey (Nat.toDigits 10 bodyBytes.length) w.headers
        else w.headers
      let out :=
        statusLineBytes w.statusCode ++ renderHeaders hs ++ crlfL ++
          (if ¬ w.chunked ∧ bodyBytes ≠ [] then bodyBytes else [])
      (none, { w with headers := hs, sink := w.sink ++ out })

/-! ## Incremental request parser (`internal/request/request.go`) -/

/-- Parser states, mirroring the `StateInitialized .. StateDone` iota block. -/
inductive RState
  | stateInitialized
  | stateParsingRequestLine
  | stateParsingHeaders
  | stateParsingBody
  | stateDone
deriving DecidableEq

/-- Numeric value of a parser state, per the Go iota block. -/
def RState.toNat : RState → Nat
  | .stateInitialized => 0
  | .stateParsingRequestLine => 1
  | .stateParsingHeaders => 2
  | .stateParsingBody => 3
  | .stateDone => 4

/-- The parsed request line (field order as in the Go struct). -/
structure RequestLine where
  httpVersion : List Char
  requestTarget : List Char
  method : List Char
deriving DecidableEq

/-- A request under construction.  `body = none` models Go's nil `[]byte`. -/
structure Request where
  requestLine : RequestLine
  headers : Headers
  body : Option (List Char)
  state : RState
deriving DecidableEq

/-- Request-parser errors, one constructor per error site of `request.go`
(the two "invalid HTTP version" messages share one constructor; the
`goPanic*` constructors stand for the Go runtime panics that
`make([]byte, 0, negative)` and a negative slice bound raise). -/
inductive RErr
  | doneState
  | badRequestLineParts
  | invalidMethod
  | invalidTarget
  | invalidHttpVersion
  | headersErr (e : HErr)
  | invalidStateDispatch
  | invalidContentLength
  | goPanicMakeSliceNegCap
  | goPanicSliceBounds
  | bodyShorterThanContentLength
  | incompleteRequest
  | noProgress
deriving DecidableEq

/-- The five allowed methods. -/
def isValidMethod (m : List Char) : Bool :=
  m = ("GET").data || m = ("POST").data || m = ("PATCH").data ||
    m = ("PUT").data || m = ("DELETE").data

/-- `parseHttpVersion`: split on "/" into exactly `["HTTP", "1.1"]` and
return the "1.1" part. -/
def parseHttpVersion (version : List Char) : Except RErr (List Char) :=
  match splitOnChar '/' version with
  | [p, q] =>
    if p ≠ ("HTTP").data then .error .invalidHttpVersion
    else if q ≠ ("1.1").data then .error .invalidHttpVersion
    else .ok q
  | _ => .error .invalidHttpVersion

/-- The initial `Initialized → ParsingRequestLine` bump performed on entry to
`parseRequestLine`. -/
def bumpState (r : Request) : Request :=
  if r.state = .stateInitialized then
    { r with state := .stateParsingRequestLine }
  else r

/-- `Request.parseRequestLine`: find the first CRLF (consume 0 when absent),
split the line on single spaces into exactly three parts, validate method,
target and version, then consume `lineEnd + 2` and move to ParsingHeaders.
The Go code performs the Initialized → ParsingRequestLine bump on entry; as
errors abort the whole request and success overwrites the state, applying
`bumpState` in the two returned-request positions is observably the same. -/
def parseRequestLine (r : Request) (data : List Char) :
    Except RErr (Nat × Request) :=
  match findSub crlfL data with
  | none => .ok (0, bumpState r)
  | some lineEnd =>
    match splitOnChar ' ' (data.take lineEnd) with
    | [m, t, v] =>
      if isValidMethod m = true then
        if t = [] ∨ startsWithL [ '/' ] t = false then
          .error .invalidTarget
        else
          match parseHttpVersion v with
          | .error e => .error e
          | .ok ver =>
            .ok (lineEnd + 2,
              { bumpState r with
                requestLine :=
                  { httpVersion := ver, requestTarget := t, method := m },
                state := .stateParsingHeaders })
      else .error .invalidMethod
    | _ => .error .badRequestLineParts

/-- The header loop of `parseHeaders` when the CRLFCRLF terminator is not in
view: parse fields until an error, `done`, or a `(0, false)` more-data
answer.  The final `Nat` is recursion fuel only; every iteration that
recurses consumes at least one byte, so the fuel the callers pass can never
run out. -/
def headersLoopA (h : Headers) (data : List Char) (acc : Nat) :
    Nat → Except HErr (Nat × Headers × Bool)
  | 0 => .ok (acc, h, false)
  | fuel + 1 =>
    if data = [] then .ok (acc, h, false)
    else
      match Headers.Parse h data with
      | .error e => .error e
      | .ok (n, done, h2) =>
        if done then .ok (acc + n, h2, true)
        else if n = 0 then .ok (acc, h2, false)
        else headersLoopA h2 (data.drop n) (acc + n) fuel

/-- The header loop of `parseHeaders` over a complete header section
(terminator included): parse fields until an error, `done`, or `n = 0`. -/
def headersLoopB (h : Headers) (data : List Char) (acc : Nat) :
    Nat → Except HErr (Nat × Headers)
  | 0 => .ok (acc, h)
  | fuel + 1 =>
    if data = [] then .ok (acc, h)
    else
      match Headers.Parse h data with
      | .error e => .error e
      | .ok (n, done, h2) =>
        if done = true ∨ n = 0 then .ok (acc + n, h2)
        else headersLoopB h2 (data.drop n) (acc + n) fuel

/-- `Request.parseHeaders`: when the full CRLFCRLF terminator is present the
Header-store parser is driven over exactly that prefix and `emptyLinePos + 4`
bytes are consumed with a transition to ParsingBody; otherwise whatever is
available is fed one field at a time.  A header-store error aborts the
request (Go wraps it with "error parsing headers:"), so the partial in-place
map mutations before the error are unobservable and not modelled. -/
def parseHeaders (r : Request) (data : List Char) :
    Except RErr (Nat × Request) :=
  match findSub crlf2L data with
  | none =>
    match headersLoopA r.headers data 0 (data.length + 1) with
    | .error e => .error (.headersErr e)
    | .ok (n, h2, done) =>
      let st := if done then RState.stateParsingBody else r.state
      .ok (n, { r with headers := h2, state := st })
  | some emptyLinePos =>
    match headersLoopB r.headers (data.take (emptyLinePos + 4)) 0
        (data.length + 5) with
    | .error e => .error (.headersErr e)
    | .ok (_, h2) =>
      .ok (emptyLinePos + 4,
        { r with headers := h2, state := .stateParsingBody })

/-- `Request.parseBody`: with no data, wait; with no `content-length`, the
request is done with no body; a value `strconv.Atoi` rejects fails
`invalidContentLength`; a negative accepted value makes the Go code panic in
`make([]byte, 0, contentLength)`; otherwise copy what is available up to the
declared length (Go clamps `bytesToCopy` with an if-assignment, modelled as
`min`) and finish when the body is complete. -/
def parseBody (r : Request) (data : List Char) : Except RErr (Nat × Request) :=
  if data = [] then .ok (0, r)
  else
    match hLookup r.headers clKey with
    | none => .ok (0, { r with state := .stateDone })
    | some s =>
      match goAtoi s with
      | none => .error .invalidContentLength
      | some contentLength =>
        if r.body = none ∧ contentLength < 0 then
          .error .goPanicMakeSliceNegCap
        else
          let b := r.body.getD []
          let bytesNeeded : Int := contentLength - b.length
          let bytesToCopy : Int := min (data.length : Int) bytesNeeded
          if bytesToCopy < 0 then .error .goPanicSliceBounds
          else
            let b2 := b ++ data.take bytesToCopy.toNat
            if (b2.length : Int) = contentLength then
              .ok (bytesToCopy.toNat,
                { r with body := some b2, state := .stateDone })
            else .ok (bytesToCopy.toNat, { r with body := some b2 })

/-- `Request.parseSingle`: dispatch on the parser state. -/
def parseSingle (r : Request) (data : List Char) :
    Except RErr (Nat × Request) :=
  match r.state with
  | .stateInitialized | .stateParsingRequestLine => parseRequestLine r data
  | .stateParsingHeaders => parseHeaders r data
  | .stateParsingBody => parseBody r data
  | .stateDone => .error .invalidStateDispatch

/-- The inner loop of `parseAndUpdateState`: call `parseSingle` on the
unconsumed suffix until the state is Done, an error occurs, or a call
consumes nothing.  `fuel` only bounds the recursion; every caller passes
more fuel than the loop can use. -/
def advanceLoop (r : Request) (data : List Char) (total : Nat) :
    Nat → Except RErr (Nat × Request)
  | 0 => .ok (total, r)
  | fuel + 1 =>
    if r.state = .stateDone then .ok (total, r)
    else
      match parseSingle r (data.drop total) with
      | .error e => .error e
      | .ok (n, r2) =>
        if n = 0 then .ok (total, r2)
        else advanceLoop r2 data (total + n) fuel

/-- `Request.parseAndUpdateState`: fails `doneState` when called on a
finished parser, otherwise runs the single-step loop. -/
def parseAndUpdateState (r : Request) (data : List Char) :
    Except RErr (Nat × Request) :=
  if r.state = .stateDone then .error .doneState
  else advanceLoop r data 0 (data.length + 1)

/-- The empty request `&Request{state: StateInitialized}`. -/
def emptyRequest : Request :=
  { requestLine := { httpVersion := [], requestTarget := [], method := [] },
    headers := [], body := none, state := .stateInitialized }

/-- One reader iteration's EOF bookkeeping: is the body shorter than a
positive declared `content-length`?  (`len(nil)` is 0 in Go; the nil check
is kept as in the source.) -/
def bodyShortAtEof (r : Request) : Bool :=
  match hLookup r.headers clKey with
  | none => false
  | some s =>
    match goAtoi s with
    | none => false
    | some contentLength =>
      decide (contentLength > 0 ∧
        (r.body = none ∨ ((r.body.getD []).length : Int) < contentLength))

/-- The read loop of `RequestFromReader` over an in-memory byte source with
`strings.Reader` semantics: a read returns as many of the remaining bytes as
fit in the free buffer space, and reports EOF exactly when no bytes remain
at the time of the call.  The growable buffer starts at capacity 8 and
doubles when full.  `fuel` only bounds the recursion. -/
def readLoop (stream buf : List Char) (capacity : Nat) (r : Request) :
    Nat → Except RErr Request
  | 0 => .error .noProgress
  | fuel + 1 =>
    let capacity := if buf.length = capacity then capacity * 2 else capacity
    let space := capacity - buf.length
    let chunk := stream.take space
    let isEof := stream = []
    let buf := buf ++ chunk
    match parseAndUpdateState r buf with
    | .error e => .error e
    | .ok (consumed, r2) =>
      if r2.state = .stateDone then .ok r2
      else if isEof then
        if r2.state = .stateParsingBody then
          if bodyShortAtEof r2 then .error .bodyShorterThanContentLength
          else .ok { r2 with state := .stateDone }
        else .error .incompleteRequest
      else if chunk.length = 0 ∧ consumed = 0 then .error .noProgress
      else readLoop (stream.drop space) (buf.drop consumed) capacity r2 fuel

/-- `RequestFromReader` over an in-memory byte stream. -/
def RequestFromReader (stream : List Char) : Except RErr Request :=
  readLoop stream [] 8 emptyRequest (stream.length + 2)

/-! ## Supporting lemmas on the character-list utilities -/

/-- A token character is none of CR, LF, colon, space. -/
theorem tokenChar_ne {c : Char} (h : isTokenChar c = true) :
    c ≠ '\r' ∧ c ≠ '\n' ∧ c ≠ ':' ∧ c ≠ ' ' := by
  refine ⟨?_, ?_, ?_, ?_⟩ <;>
    · intro e
      rw [e] at h
      exact absurd h (by decide)

/-- CRLF is not a prefix of a list whose head is not CR. -/
theorem startsWithL_crlf_false {a : Char} (l : List Char) (ha : a ≠ '\r') :
    startsWithL crlfL (a :: l) = false := by
  simp [crlfL, startsWithL, Ne.symm ha]

/-- Searching for CRLF in `A ++ CRLF ++ B` finds it right after `A` when `A`
contains no CR. -/
theorem findSub_crlf_append (A B : List Char) (hA : '\r' ∉ A) :
    findSub crlfL (A ++ '\r' :: '\n' :: B) = some A.length := by
  induction A with
  | nil => simp [findSub, startsWithL, crlfL]
  | cons a A ih =>
    have ha : a ≠ '\r' := fun e => hA (e ▸ List.mem_cons_self a A)
    have hA2 : '\r' ∉ A := fun hm => hA (List.mem_cons_of_mem a hm)
    simp [findSub, startsWithL_crlf_false _ ha, ih hA2]

/-- Searching for `c` in `A ++ c :: B` finds it right after `A` when `A`
does not contain `c`. -/
theorem charIdx_append (c : Char) (A B : List Char) (hA : c ∉ A) :
    charIdx c (A ++ c :: B) = some A.length := by
  induction A with
  | nil => simp [charIdx]
  | cons a A ih =>
    have ha : a ≠ c := fun e => hA (e ▸ List.mem_cons_self a A)
    have hA2 : c ∉ A := fun hm => hA (List.mem_cons_of_mem a hm)
    simp [charIdx, ha, ih hA2]

/-- Looking up the key just fed to `joinInsert`: a fresh key stores the
value, an existing one the old value extended with `", " ++ val`. -/
theorem hLookup_joinInsert (key val : List Char) (h : Headers) :
    hLookup (joinInsert key val h) key
      = some (match hLookup h key with
              | some v0 => v0 ++ commaSp ++ val
              | none => val) := by
  induction h with
  | nil => simp [joinInsert, hLookup]
  | cons kv t ih =>
    obtain ⟨k, v⟩ := kv
    by_cases hk : k = key
    · subst hk
      simp [joinInsert, hLookup]
    · simp [joinInsert, hLookup, hk, ih]

/-! ## Claim C2: well-formed field lines are stored canonically -/

/-- C2: for a chunk whose first line is a complete well-formed field-line
`K : V CRLF` (non-empty token name `K`; the byte before the colon is a token
character, hence not a space; `V` free of CR so that the line's CRLF is the
chunk's first), `Headers.Parse` consumes `lineEnd + 2` bytes
(`lineEnd = |K| + 1 + |V|`), reports `done = false` with no error, and
stores the trimmed value under the lower-cased name — joining onto an
existing value with `", "`, in insertion order (second conjunct). -/
theorem headersParse_stores_field (h : Headers) (K V rest : List Char)
    (hK : K ≠ []) (hKtok : K.all isTokenChar = true) (hVr : '\r' ∉ V) :
    Headers.Parse h (K ++ ':' :: V ++ '\r' :: '\n' :: rest)
      = Except.ok (K.length + V.length + 3, false,
          joinInsert (K.map toLowerCh) (trimOWS V) h) ∧
    hLookup (joinInsert (K.map toLowerCh) (trimOWS V) h) (K.map toLowerCh)
      = some (match hLookup h (K.map toLowerCh) with
              | some v0 => v0 ++ commaSp ++ trimOWS V
              | none => trimOWS V) := by
  have htokAll : ∀ c ∈ K, isTokenChar c = true := fun c hc =>
    (List.all_eq_true.mp hKtok) c hc
  have hKr : '\r' ∉ K := fun hm => (tokenChar_ne (htokAll _ hm)).1 rfl
  have hKc : ':' ∉ K := fun hm => (tokenChar_ne (htokAll _ hm)).2.2.1 rfl
  have hKpos : 0 < K.length := List.length_pos.mpr hK
  have hdata : K ++ ':' :: V ++ '\r' :: '\n' :: rest
      = (K ++ ':' :: V) ++ '\r' :: '\n' :: rest := by
    simp [List.append_assoc]
  have hAr : '\r' ∉ K ++ ':' :: V := by
    intro hm
    rcases List.mem_append.mp hm with hm | hm
    · exact hKr hm
    · rcases List.mem_cons.mp hm with hm | hm
      · exact absurd hm (by decide)
      · exact hVr hm
  have hAlen : (K ++ ':' :: V).length = K.length + V.length + 1 := by
    simp [List.length_append]
    omega
  have hfind : findSub crlfL (K ++ ':' :: V ++ '\r' :: '\n' :: rest)
      = some (K.length + V.length + 1) := by
    rw [hdata, findSub_crlf_append _ _ hAr, hAlen]
  have htake : (K ++ ':' :: V ++ '\r' :: '\n' :: rest).take
      (K.length + V.length + 1) = K ++ ':' :: V := by
    rw [hdata, ← hAlen, List.take_left]
  have hcolon : charIdx ':' (K ++ ':' :: V) = some K.length :=
    charIdx_append ':' K V hKc
  have hj0 : ¬ (K.length = 0) := by omega
  have hlt : K.length - 1 < K.length := by omega
  have hgetK : K.get? (K.length - 1) = some (K.get ⟨K.length - 1, hlt⟩) :=
    List.get?_eq_get hlt
  have hlastTok : isTokenChar (K.get ⟨K.length - 1, hlt⟩) = true :=
    htokAll _ (K.get_mem _ _)
  have hnsp : ¬ ((K ++ ':' :: V).get? (K.length - 1) = some ' ') := by
    rw [List.get?_append hlt, hgetK]
    intro he
    exact (tokenChar_ne hlastTok).2.2.2 (Option.some.inj he)
  have htaken : (K ++ ':' :: V).take K.length = K := List.take_left K _
  have hdropv : (K ++ ':' :: V).drop (K.length + 1) = V := by
    have he : K ++ ':' :: V = (K ++ [ ':' ]) ++ V := by simp
    have hl : (K ++ [ ':' ]).length = K.length + 1 := by simp
    rw [he, ← hl, List.drop_left]
  have hne : K ++ ':' :: V ++ '\r' :: '\n' :: rest ≠ [] := by
    simp [hdata]
  have hsw : startsWithL crlfL (K ++ ':' :: V ++ '\r' :: '\n' :: rest)
      = false := by
    cases K with
    | nil => exact absurd rfl hK
    | cons k0 K2 =>
      have hk0 : k0 ≠ '\r' :=
        (tokenChar_ne (htokAll k0 (List.mem_cons_self k0 K2))).1
      simp only [List.cons_append]
      exact startsWithL_crlf_false _ hk0
  refine ⟨?_, hLookup_joinInsert _ _ h⟩
  simp only [Headers.Parse, hne, if_false, hsw, Bool.false_eq_true, hfind,
    htake, hcolon, hj0, hnsp, htaken, hdropv, hKtok, if_true]

/-- C2 witness: the theorem applied to the concrete field-line
`Host: localhost:42069\r\n` parsed into an empty store, plus a second
application into a store that already holds `host`, exercising the
multi-value join. -/
theorem headersParse_stores_field_witness :
    Headers.Parse [] (("Host").data ++ ':' :: (" localhost:42069").data
        ++ '\r' :: '\n' :: [])
      = Except.ok (23, false, [(("host").data, ("localhost:42069").data)]) ∧
    hLookup
        (joinInsert ((("Host").data).map toLowerCh) (trimOWS ((" b").data))
          [(("host").data, ("a").data)]) ((("Host").data).map toLowerCh)
      = some (("a, b").data) := by
  constructor
  · have h2 := (headersParse_stores_field [] (("Host").data)
      ((" localhost:42069").data) [] (by decide) (by decide) (by decide)).1
    rw [h2]
    decide
  · have h3 := (headersParse_stores_field
      [(("host").data, ("a").data)] (("Host").data) ((" b").data) []
      (by decide) (by decide) (by decide)).2
    rw [h3]
    decide

/-! ## Claim C3: totality and malformed field-lines -/

/-- C3: `Headers.Parse` is a total Lean function by construction (every
input chunk is mapped to a result without reading outside the chunk), and
on every chunk that does not open with the CRLF terminator but contains a
CRLF whose field-line has no colon — or a colon at position 0 — it returns
the `MalformedHeaderLine` error, which in the Go signature is the triple
`(0, false, ErrMalformedHeaderLine)`. -/
theorem headersParse_malformed (h : Headers) (chunk : List Char) (e : Nat)
    (hpre : startsWithL crlfL chunk = false)
    (hfind : findSub crlfL chunk = some e)
    (hcol : charIdx ':' (chunk.take e) = none ∨
            charIdx ':' (chunk.take e) = some 0) :
    Headers.Parse h chunk = Except.error HErr.malformedHeaderLine := by
  have hne : chunk ≠ [] := by
    intro he
    rw [he] at hfind
    simp [findSub, startsWithL, crlfL] at hfind
  rcases hcol with hc | hc <;>
    simp only [Headers.Parse, hne, if_false, hpre, Bool.false_eq_true,
      hfind, hc, if_true]

/-- C3 witness: the theorem applied to the colon-free chunk `abc\r\n` and,
for the colon-at-position-0 case, to `: v\r\n`. -/
theorem headersParse_malformed_witness :
    Headers.Parse [] (("abc\r\n").data)
      = Except.error HErr.malformedHeaderLine ∧
    Headers.Parse [] ((": v\r\n").data)
      = Except.error HErr.malformedHeaderLine :=
  ⟨headersParse_malformed [] (("abc\r\n").data) 3 (by decide) (by decide)
     (Or.inl (by decide)),
   headersParse_malformed [] ((": v\r\n").data) 3 (by decide) (by decide)
     (Or.inr (by decide))⟩

/-! ## Claim C4: terminator and more-data answers -/

/-- C4 counterexample: the empty chunk contains no CRLF, yet `Headers.Parse`
does not answer `(0, false, ok)` — it fails with the `ErrInvalidData` error,
exactly as the package's own test suite requires for empty data. -/
theorem headersParse_empty_chunk_cx :
    Headers.Parse [] [] = Except.error HErr.invalidData := rfl

/-- C4 as amended: a chunk beginning with CRLF yields the header-section
terminator answer `(2, true, ok)`, and a non-empty chunk containing no CRLF
anywhere yields the more-data answer `(0, false, ok)`; the empty chunk is
the exception, failing with `ErrInvalidData`. -/
theorem headersParse_terminator_and_more_data (h : Headers)
    (c1 c2 : List Char) (h1 : startsWithL crlfL c1 = true) (h2 : c2 ≠ [])
    (h3 : findSub crlfL c2 = none) :
    Headers.Parse h c1 = Except.ok (2, true, h) ∧
    Headers.Parse h c2 = Except.ok (0, false, h) := by
  constructor
  · have hne : c1 ≠ [] := by
      intro he
      rw [he] at h1
      simp [startsWithL, crlfL] at h1
    simp only [Headers.Parse, hne, if_false, h1, if_true]
  · have hsw2 : startsWithL crlfL c2 = false := by
      cases hq : startsWithL crlfL c2
      · rfl
      · exfalso
        cases c2 with
        | nil => exact h2 rfl
        | cons a l => simp [findSub, hq] at h3
    simp only [Headers.Parse, h2, if_false, hsw2, Bool.false_eq_true, h3]

/-- C4 witness: the amended theorem applied to the concrete chunks
`\r\nX` (terminator) and `abc` (no CRLF). -/
theorem headersParse_terminator_and_more_data_witness :
    Headers.Parse [] (("\r\nX").data) = Except.ok (2, true, []) ∧
    Headers.Parse [] (("abc").data) = Except.ok (0, false, []) :=
  headersParse_terminator_and_more_data [] (("\r\nX").data) (("abc").data)
    (by decide) (by decide) (by decide)

/-! ## Claim C6: the request-line parser -/

/-- `splitOnChar` never returns an empty list of fields. -/
theorem splitOnChar_ne_nil (c : Char) (l : List Char) :
    splitOnChar c l ≠ [] := by
  cases l with
  | nil => simp [splitOnChar]
  | cons a rest =>
    simp only [splitOnChar]
    split
    · simp
    · split <;> simp

/-- Joining the fields of `splitOnChar` with the separator restores the
input. -/
theorem intercalateChar_splitOnChar (c : Char) (l : List Char) :
    intercalateChar c (splitOnChar c l) = l := by
  induction l with
  | nil => rfl
  | cons a rest ih =>
    simp only [splitOnChar]
    rcases h : splitOnChar c rest with _ | ⟨s, ss⟩
    · exact absurd h (splitOnChar_ne_nil c rest)
    · rw [h] at ih
      by_cases hac : a = c
      · subst hac
        simp only [if_pos rfl]
        show [] ++ a :: intercalateChar a (s :: ss) = a :: rest
        rw [ih]
        rfl
      · simp only [if_neg hac]
        cases ss with
        | nil =>
          simp only [intercalateChar] at ih ⊢
          rw [ih]
        | cons s2 ss2 =>
          show (a :: s) ++ c :: intercalateChar c (s2 :: ss2) = a :: rest
          simp only [intercalateChar] at ih
          rw [List.cons_append, ih]

/-- A two-field split uniquely reconstructs the input around one
separator. -/
theorem splitOnChar_eq_pair {c : Char} {l p q : List Char}
    (h : splitOnChar c l = [p, q]) : l = p ++ c :: q := by
  have h2 := intercalateChar_splitOnChar c l
  rw [h] at h2
  simpa [intercalateChar] using h2.symm

/-- Having `/` as one-character prefix is having `/` as head. -/
theorem startsWithL_slash_iff (t : List Char) :
    startsWithL [ '/' ] t = true ↔ t.head? = some '/' := by
  cases t with
  | nil => simp [startsWithL]
  | cons a l => simp [startsWithL, eq_comm]

/-- The entry bump only touches the state field. -/
theorem bumpState_headers (r : Request) : (bumpState r).headers = r.headers := by
  unfold bumpState
  split <;> rfl

/-- The entry bump only touches the state field. -/
theorem bumpState_body (r : Request) : (bumpState r).body = r.body := by
  unfold bumpState
  split <;> rfl

/-- C6: on every buffer containing a complete CRLF-terminated first line,
`parseRequestLine` behaves exactly as claimed: the line before the first
CRLF is split on single spaces and must give exactly three parts; the
method must be one of the five allowed ones (else `invalidMethod`); the
target must be non-empty and start with `/` (else `invalidTarget`); the
third part must be exactly `HTTP/1.1` (else `invalidHttpVersion`); and on
success `lineEnd + 2` bytes are consumed with the parser moved to
ParsingHeaders. -/
theorem parseRequestLine_complete_line (r : Request) (d : List Char) (e : Nat)
    (hfind : findSub crlfL d = some e) :
    parseRequestLine r d
      = (match splitOnChar ' ' (d.take e) with
         | [m, t, v] =>
           if isValidMethod m = true then
             if t ≠ [] ∧ t.head? = some '/' then
               if v = ("HTTP/1.1").data then
                 Except.ok (e + 2,
                   { r with
                     requestLine :=
                       { httpVersion := ("1.1").data, requestTarget := t,
                         method := m },
                     state := RState.stateParsingHeaders })
               else Except.error RErr.invalidHttpVersion
             else Except.error RErr.invalidTarget
           else Except.error RErr.invalidMethod
         | _ => Except.error RErr.badRequestLineParts) := by
  simp only [parseRequestLine, hfind]
  rcases hsp : splitOnChar ' ' (d.take e) with _ | ⟨m, _ | ⟨t, _ | ⟨v, _ | ⟨w, ws⟩⟩⟩⟩
  · rfl
  · rfl
  · rfl
  case cons.cons.cons.cons => rfl
  -- the three-part case
  by_cases hm : isValidMethod m = true
  · simp only [if_pos hm]
    by_cases ht : t ≠ [] ∧ t.head? = some '/'
    · have hsw : startsWithL [ '/' ] t = true :=
        (startsWithL_slash_iff t).mpr ht.2
      have hcond : ¬ (t = [] ∨ startsWithL [ '/' ] t = false) := by
        simp [ht.1, hsw]
      simp only [if_neg hcond, if_pos ht]
      by_cases hv : v = ("HTTP/1.1").data
      · subst hv
        rw [if_pos rfl]
        have hpv : parseHttpVersion (("HTTP/1.1").data)
            = Except.ok (("1.1").data) := by decide
        rw [hpv]
        simp [bumpState_headers, bumpState_body]
      · rw [if_neg hv]
        rcases hpv : splitOnChar '/' v with _ | ⟨p, _ | ⟨q, _ | ⟨x, xs⟩⟩⟩
        · simp [parseHttpVersion, hpv]
        · simp [parseHttpVersion, hpv]
        · -- two parts
          by_cases hp : p = ("HTTP").data
          · by_cases hq : q = ("1.1").data
            · exfalso
              apply hv
              have := splitOnChar_eq_pair hpv
              rw [this, hp, hq]
              decide
            · simp [parseHttpVersion, hpv, hp, hq]
          · simp [parseHttpVersion, hpv, hp]
        · simp [parseHttpVersion, hpv]
    · have hcond : t = [] ∨ startsWithL [ '/' ] t = false := by
        by_cases hte : t = []
        · exact Or.inl hte
        · right
          have hh : ¬ t.head? = some '/' := fun hh => ht ⟨hte, hh⟩
          cases hq : startsWithL [ '/' ] t
          · rfl
          · exact absurd ((startsWithL_slash_iff t).mp hq) hh
      simp only [if_pos hcond, if_neg ht]
  · simp only [if_neg hm]

/-- C6 witness: the theorem applied at the concrete buffer
`GET /coffee HTTP/1.1\r\nx`, whose first CRLF sits at index 20. -/
theorem parseRequestLine_complete_line_witness :
    parseRequestLine emptyRequest (("GET /coffee HTTP/1.1\r\nx").data)
      = Except.ok (22,
          { emptyRequest with
            requestLine :=
              { httpVersion := ("1.1").data,
                requestTarget := ("/coffee").data, method := ("GET").data },
            state := RState.stateParsingHeaders }) := by
  have h := parseRequestLine_complete_line emptyRequest
    (("GET /coffee HTTP/1.1\r\nx").data) 20 (by decide)
  rw [h]
  decide

/-! ## Claim C1: the chunked round-trip call sequence -/

/-- Step 1 of the scenario: `WriteStatusLine(200)` on a fresh writer. -/
def chunkedStep1 : Option WErr × Writer := Writer.WriteStatusLine NewWriter 200

/-- Step 2: `WriteHeaders({transfer-encoding: chunked})`. -/
def chunkedStep2 : Option WErr × Writer :=
  Writer.WriteHeaders chunkedStep1.2 [(teKey, chunkedVal)]

/-- Step 3: `WriteChunkedBody("hello")`. -/
def chunkedStep3 : Except WErr Nat × Writer :=
  Writer.WriteChunkedBody chunkedStep2.2 (("hello").data)

/-- Step 4: `WriteChunkedBody(" world")`. -/
def chunkedStep4 : Except WErr Nat × Writer :=
  Writer.WriteChunkedBody chunkedStep3.2 ((" world").data)

/-- Step 5: `WriteChunkedBodyDone()`. -/
def chunkedStep5 : Except WErr Nat × Writer :=
  Writer.WriteChunkedBodyDone chunkedStep4.2

/-- Step 6: `WriteTrailers({x-sum: 2})`. -/
def chunkedStep6 : Option WErr × Writer :=
  Writer.WriteTrailers chunkedStep5.2 [(("x-sum").data, ("2").data)]

/-- Step 7: `Flush()`. -/
def chunkedStep7 : Option WErr × Writer := Writer.Flush chunkedStep6.2

/-- The bytes the claim expects on the wire. -/
def chunkedClaimedBytes : List Char :=
  ("HTTP/1.1 200 OK\r\ntransfer-encoding: chunked\r\n\r\n5\r\nhello\r\n6\r\n world\r\n0\r\nx-sum: 2\r\n\r\n").data

/-- The bytes the code actually leaves in the sink: only the chunk frames,
the zero chunk, the trailer block and the final blank line — no status line
and no header block, because `WriteChunkedBody` writes chunks directly to
the sink while the status line and headers are emitted only by `Flush`,
which returns without emitting them once the state is TrailersWritten. -/
def chunkedActualBytes : List Char :=
  ("5\r\nhello\r\n6\r\n world\r\n0\r\nx-sum: 2\r\n\r\n").data

/-- C1: the scenario's seven calls all succeed, but the sink afterwards
holds only the chunk/trailer frames (`chunkedActualBytes`), not the
claimed full response: the chunked path never emits the status line or the
header block, contradicting the wire format documented in the writer's own
source comment. -/
theorem chunkedRoundTrip_code_behavior :
    chunkedStep1.1 = none ∧ chunkedStep2.1 = none ∧
    chunkedStep3.1 = Except.ok 5 ∧ chunkedStep4.1 = Except.ok 6 ∧
    chunkedStep5.1 = Except.ok 0 ∧ chunkedStep6.1 = none ∧
    chunkedStep7.1 = none ∧
    chunkedStep7.2.sink = chunkedActualBytes ∧
    chunkedStep7.2.sink ≠ chunkedClaimedBytes := by decide

/-! ## Claim C5: body-phase error handling -/

/-- C5: evaluating the parser pipeline at the failing input.  A stored
`content-length` of `-1` is accepted by `strconv.Atoi`, so the code reaches
`make([]byte, 0, -1)` and panics instead of failing `InvalidContentLength`
(first conjunct).  The claim's other two parts hold on the code: a
non-numeric value fails `InvalidContentLength`; EOF with a short body fails
`BodyShorterThanContentLength`; and EOF in ParsingBody without
`content-length` completes successfully with no body. -/
theorem parseBody_negative_content_length_panics :
    RequestFromReader (("POST / HTTP/1.1\r\ncontent-length: -1\r\n\r\nx").data)
      = Except.error RErr.goPanicMakeSliceNegCap ∧
    RequestFromReader (("POST / HTTP/1.1\r\ncontent-length: abc\r\n\r\nx").data)
      = Except.error RErr.invalidContentLength ∧
    RequestFromReader
        (("POST / HTTP/1.1\r\ncontent-length: 20\r\n\r\n123456789012345").data)
      = Except.error RErr.bodyShorterThanContentLength ∧
    RequestFromReader (("GET / HTTP/1.1\r\nhost: x\r\n\r\n").data)
      = Except.ok
          { requestLine :=
              { httpVersion := ("1.1").data, requestTarget := ("/").data,
                method := ("GET").data },
            headers := [(("host").data, ("x").data)], body := none,
            state := RState.stateDone } := by decide

/-! ## Claim C7: out-of-order writer calls are rejected without effect -/

/-- C7: each gated writer operation, invoked in any state outside the
state(s) in which it is valid, returns `InvalidWriteState` and returns the
writer completely unchanged — in particular the sink, the header store and
the body buffer are untouched. -/
theorem writer_out_of_order_rejected
    (w1 w2 w3 w4 w5 w6 : Writer) (code : Nat) (hs ts : Headers)
    (p q : List Char)
    (h1 : w1.state ≠ WState.stateInitialized)
    (h2 : w2.state ≠ WState.stateStatusWritten)
    (h3 : w3.state ≠ WState.stateHeadersWritten)
    (h4 : w4.state ≠ WState.stateHeadersWritten ∧
          w4.state ≠ WState.stateChunkedBodyStarted)
    (h5 : w5.state ≠ WState.stateChunkedBodyStarted)
    (h6 : w6.state ≠ WState.stateChunkedBodyDone) :
    Writer.WriteStatusLine w1 code = (some WErr.invalidWriteState, w1) ∧
    Writer.WriteHeaders w2 hs = (some WErr.invalidWriteState, w2) ∧
    Writer.WriteBody w3 p = (Except.error WErr.invalidWriteState, w3) ∧
    Writer.WriteChunkedBody w4 q = (Except.error WErr.invalidWriteState, w4) ∧
    Writer.WriteChunkedBodyDone w5 = (Except.error WErr.invalidWriteState, w5) ∧
    Writer.WriteTrailers w6 ts = (some WErr.invalidWriteState, w6) := by
  refine ⟨?_, ?_, ?_, ?_, ?_, ?_⟩
  · simp [Writer.WriteStatusLine, h1]
  · simp [Writer.WriteHeaders, h2]
  · simp [Writer.WriteBody, h3]
  · simp [Writer.WriteChunkedBody, h4.1, h4.2]
  · simp [Writer.WriteChunkedBodyDone, h5]
  · simp [Writer.WriteTrailers, h6]

/-- C7 witness: the theorem applied at six concrete writers, one per
operation, each in a concrete state where the operation is illegal. -/
theorem writer_out_of_order_rejected_witness :
    Writer.WriteStatusLine { NewWriter with state := WState.stateStatusWritten }
        200
      = (some WErr.invalidWriteState,
         { NewWriter with state := WState.stateStatusWritten }) ∧
    Writer.WriteHeaders { NewWriter with state := WState.stateInitialized } []
      = (some WErr.invalidWriteState,
         { NewWriter with state := WState.stateInitialized }) ∧
    Writer.WriteBody { NewWriter with state := WState.stateBodyWritten } []
      = (Except.error WErr.invalidWriteState,
         { NewWriter with state := WState.stateBodyWritten }) ∧
    Writer.WriteChunkedBody
        { NewWriter with state := WState.stateChunkedBodyDone } []
      = (Except.error WErr.invalidWriteState,
         { NewWriter with state := WState.stateChunkedBodyDone }) ∧
    Writer.WriteChunkedBodyDone
        { NewWriter with state := WState.stateHeadersWritten }
      = (Except.error WErr.invalidWriteState,
         { NewWriter with state := WState.stateHeadersWritten }) ∧
    Writer.WriteTrailers
        { NewWriter with state := WState.stateTrailersWritten } []
      = (some WErr.invalidWriteState,
         { NewWriter with state := WState.stateTrailersWritten }) :=
  writer_out_of_order_rejected _ _ _ _ _ _ 200 [] [] [] []
    (by decide) (by decide) (by decide) ⟨by decide, by decide⟩
    (by decide) (by decide)

/-! ## Claim C8: WriteChunkedBody with an empty payload -/

/-- A writer sitting in `stateHeadersWritten`, about to write its first
chunk. -/
def wHeadersWritten : Writer :=
  { NewWriter with state := WState.stateHeadersWritten }

/-- C8 counterexample: from `stateHeadersWritten` — a state in which
`WriteChunkedBody` may legally be called — an empty payload emits nothing,
but the writer does not stay unchanged: the state moves to
`stateChunkedBodyStarted` (and the chunked flag is set), because the code
updates both before checking for an empty payload. -/
theorem writeChunkedBody_empty_state_change_cx :
    wHeadersWritten.state = WState.stateHeadersWritten ∧
    (Writer.WriteChunkedBody wHeadersWritten []).2.sink = wHeadersWritten.sink ∧
    (Writer.WriteChunkedBody wHeadersWritten []).2.state
      = WState.stateChunkedBodyStarted ∧
    (Writer.WriteChunkedBody wHeadersWritten []).2 ≠ wHeadersWritten := by
  decide

/-- C8 as amended: in every state where `WriteChunkedBody` is legal, an
empty payload emits no bytes to the sink, but it does set the chunked flag
and move the state to `stateChunkedBodyStarted` (a no-op when the state was
already `stateChunkedBodyStarted`). -/
theorem writeChunkedBody_empty_amended (w : Writer)
    (hw : w.state = WState.stateHeadersWritten ∨
          w.state = WState.stateChunkedBodyStarted) :
    Writer.WriteChunkedBody w []
      = (Except.ok 0,
         { w with chunked := true, state := WState.stateChunkedBodyStarted }) := by
  rcases hw with h | h <;> simp [Writer.WriteChunkedBody, h]

/-- C8 witness: the amended theorem applied at a concrete writer already in
`stateChunkedBodyStarted`. -/
theorem writeChunkedBody_empty_amended_witness :
    Writer.WriteChunkedBody
        { NewWriter with state := WState.stateChunkedBodyStarted, chunked := true }
        []
      = (Except.ok 0,
         { NewWriter with state := WState.stateChunkedBodyStarted,
                          chunked := true }) :=
  writeChunkedBody_empty_amended _ (Or.inr rfl)

/-! ## Claim C9: parser-state monotonicity and terminal Done -/

/-- A successful `parseRequestLine` leaves the state at the entry bump or
moves it to ParsingHeaders. -/
theorem parseRequestLine_ok_state {r : Request} {data : List Char} {n : Nat}
    {r2 : Request} (h : parseRequestLine r data = Except.ok (n, r2)) :
    r2.state = (bumpState r).state ∨ r2.state = RState.stateParsingHeaders := by
  simp only [parseRequestLine] at h
  split at h
  · simp only [Except.ok.injEq, Prod.mk.injEq] at h
    exact Or.inl (by rw [← h.2])
  · split at h
    · split at h
      · split at h
        · exact absurd h (by simp)
        · split at h
          · exact absurd h (by simp)
          · simp only [Except.ok.injEq, Prod.mk.injEq] at h
            exact Or.inr (by rw [← h.2])
      · exact absurd h (by simp)
    · exact absurd h (by simp)

/-- A successful `parseHeaders` moves the state to ParsingBody or leaves it
unchanged. -/
theorem parseHeaders_ok_state {r : Request} {data : List Char} {n : Nat}
    {r2 : Request} (h : parseHeaders r data = Except.ok (n, r2)) :
    r2.state = RState.stateParsingBody ∨ r2.state = r.state := by
  simp only [parseHeaders] at h
  split at h
  · split at h
    · exact absurd h (by simp)
    · simp only [Except.ok.injEq, Prod.mk.injEq] at h
      rw [← h.2]
      rename_i done _
      by_cases hd : done = true
      · exact Or.inl (by simp [hd])
      · exact Or.inr (by simp [hd])
  · split at h
    · exact absurd h (by simp)
    · simp only [Except.ok.injEq, Prod.mk.injEq] at h
      exact Or.inl (by rw [← h.2])

/-- A successful `parseBody` moves the state to Done or leaves it
unchanged. -/
theorem parseBody_ok_state {r : Request} {data : List Char} {n : Nat}
    {r2 : Request} (h : parseBody r data = Except.ok (n, r2)) :
    r2.state = RState.stateDone ∨ r2.state = r.state := by
  simp only [parseBody] at h
  split at h
  · simp only [Except.ok.injEq, Prod.mk.injEq] at h
    exact Or.inr (by rw [← h.2])
  · split at h
    · simp only [Except.ok.injEq, Prod.mk.injEq] at h
      exact Or.inl (by rw [← h.2])
    · split at h
      · exact absurd h (by simp)
      · split at h
        · exact absurd h (by simp)
        · split at h
          · exact absurd h (by simp)
          · split at h
            · simp only [Except.ok.injEq, Prod.mk.injEq] at h
              exact Or.inl (by rw [← h.2])
            · simp only [Except.ok.injEq, Prod.mk.injEq] at h
              exact Or.inr (by rw [← h.2])

/-- A successful `parseSingle` never decreases the parser state. -/
theorem parseSingle_mono {r : Request} {data : List Char} {n : Nat}
    {r2 : Request} (h : parseSingle r data = Except.ok (n, r2)) :
    r.state.toNat ≤ r2.state.toNat := by
  rcases hs : r.state
  case stateInitialized =>
    simp only [parseSingle, hs] at h
    rcases parseRequestLine_ok_state h with h2 | h2 <;>
      simp [h2, bumpState, hs, RState.toNat]
  case stateParsingRequestLine =>
    simp only [parseSingle, hs] at h
    rcases parseRequestLine_ok_state h with h2 | h2 <;>
      simp [h2, bumpState, hs, RState.toNat]
  case stateParsingHeaders =>
    simp only [parseSingle, hs] at h
    rcases parseHeaders_ok_state h with h2 | h2 <;>
      simp [h2, hs, RState.toNat]
  case stateParsingBody =>
    simp only [parseSingle, hs] at h
    rcases parseBody_ok_state h with h2 | h2 <;>
      simp [h2, hs, RState.toNat]
  case stateDone =>
    simp only [parseSingle, hs] at h
    exact absurd h (by simp)

/-- The advance loop never decreases the parser state. -/
theorem advanceLoop_mono (fuel : Nat) :
    ∀ (r : Request) (data : List Char) (total n : Nat) (r2 : Request),
    advanceLoop r data total fuel = Except.ok (n, r2) →
    r.state.toNat ≤ r2.state.toNat := by
  induction fuel with
  | zero =>
    intro r data total n r2 h
    simp only [advanceLoop, Except.ok.injEq, Prod.mk.injEq] at h
    rw [← h.2]
  | succ f ih =>
    intro r data total n r2 h
    simp only [advanceLoop] at h
    split at h
    · simp only [Except.ok.injEq, Prod.mk.injEq] at h
      rw [← h.2]
    · split at h
      · exact absurd h (by simp)
      · rename_i n1 r1 heq
        split at h
        · simp only [Except.ok.injEq, Prod.mk.injEq] at h
          rw [← h.2]
          exact parseSingle_mono heq
        · exact le_trans (parseSingle_mono heq)
            (ih r1 data (total + n1) n r2 h)

/-- C9: the parser only moves forward.  `parseAndUpdateState` on a parser
already in Done fails with the "trying to read data in a done state" error;
every successful `parseSingle` step and every successful
`parseAndUpdateState` run is monotone in the iota-ordered parser state, so
there are no back-edges along any run. -/
theorem requestParser_monotone_done_terminal :
    (∀ (r : Request) (data : List Char), r.state = RState.stateDone →
        parseAndUpdateState r data = Except.error RErr.doneState) ∧
    (∀ (r : Request) (data : List Char) (n : Nat) (r2 : Request),
        parseSingle r data = Except.ok (n, r2) →
        r.state.toNat ≤ r2.state.toNat) ∧
    (∀ (r : Request) (data : List Char) (n : Nat) (r2 : Request),
        parseAndUpdateState r data = Except.ok (n, r2) →
        r.state.toNat ≤ r2.state.toNat) := by
  refine ⟨?_, ?_, ?_⟩
  · intro r data h
    simp [parseAndUpdateState, h]
  · intro r data n r2 h
    exact parseSingle_mono h
  · intro r data n r2 h
    simp only [parseAndUpdateState] at h
    split at h
    · exact absurd h (by simp)
    · exact advanceLoop_mono _ r data 0 n r2 h

/-- A parser that has already finished. -/
def doneRequest : Request := { emptyRequest with state := RState.stateDone }

/-- The parser after consuming exactly the request line
`GET / HTTP/1.1\r\n`. -/
def reqAfterLine : Request :=
  { requestLine :=
      { httpVersion := ("1.1").data, requestTarget := ("/").data,
        method := ("GET").data },
    headers := [], body := none, state := RState.stateParsingHeaders }

/-- The parser after consuming `GET / HTTP/1.1\r\n\r\n` in one advance. -/
def reqAfterHeaders : Request :=
  { reqAfterLine with state := RState.stateParsingBody }

/-- C9 witness: each conjunct of the theorem applied at concrete input — a
finished parser rejects further advances with `doneState`, and two concrete
successful steps are monotone. -/
theorem requestParser_monotone_done_terminal_witness :
    parseAndUpdateState doneRequest (("x").data)
      = Except.error RErr.doneState ∧
    emptyRequest.state.toNat ≤ reqAfterLine.state.toNat ∧
    emptyRequest.state.toNat ≤ reqAfterHeaders.state.toNat :=
  ⟨requestParser_monotone_done_terminal.1 doneRequest (("x").data) rfl,
   requestParser_monotone_done_terminal.2.1 emptyRequest
     (("GET / HTTP/1.1\r\n").data) 16 reqAfterLine (by decide),
   requestParser_monotone_done_terminal.2.2 emptyRequest
     (("GET / HTTP/1.1\r\n\r\n").data) 18 reqAfterHeaders (by decide)⟩

/-! ## Claim C10: buffered-mode operations emit nothing before Flush -/

/-- C10: `WriteStatusLine`, `WriteHeaders` and `WriteBody` never write a
byte to the underlying sink, whatever the writer's state — success or
failure.  The status line, header block, blank line and body reach the sink
only in `Flush`, so a handler that stops before `Flush` leaves the
connection's byte stream untouched. -/
theorem buffered_ops_write_nothing (w : Writer) (code : Nat) (hs : Headers)
    (p : List Char) :
    (Writer.WriteStatusLine w code).2.sink = w.sink ∧
    (Writer.WriteHeaders w hs).2.sink = w.sink ∧
    (Writer.WriteBody w p).2.sink = w.sink := by
  refine ⟨?_, ?_, ?_⟩
  · simp only [Writer.WriteStatusLine]; split <;> rfl
  · simp only [Writer.WriteHeaders]; split <;> rfl
  · simp only [Writer.WriteBody]; split <;> rfl

end Http
